import Mathlib

/-!
Shallow embedding of the duchess macro crate (src/macro/src/codegen.rs and
src/macro/src/argument.rs): the signature translator that maps Java types to
Rust type expressions plus capture/bound lists, and the recursive-descent
parser for the duchess declaration DSL.
-/

namespace Duchess

/-! ## Data model from class_info.rs (referenced by codegen.rs)

The crate file `class_info.rs` is not part of the given sources; the shapes
below are modelled from the spec (§3 "Data Model") and from the match arms in
`codegen.rs` that consume them. -/

/-- Modelled from the spec: `ScalarType` from class_info.rs, §3:
`ScalarKind ∈ {Int,Long,Short,Byte,F64,F32,Boolean}`. -/
inductive ScalarType where
  | int | long | short | byte | f64 | f32 | boolean
deriving DecidableEq, Repr

/-- Modelled from the spec: `RefType` from class_info.rs, §3:
`Class(ClassRef) | Array(RefType) | TypeParameter(Id) | Extends(RefType) |
Super(RefType) | Wildcard`, with `ClassRef{name, generics}` inlined into the
`Class` constructor (`Id` is a string). -/
inductive RefType where
  | class_ (name : String) (generics : List RefType)
  | array (elem : RefType)
  | typeParameter (t : String)
  | extends_ (inner : RefType)
  | super_ (inner : RefType)
  | wildcard

/-- Modelled from the spec: `Type` from class_info.rs, §3:
tagged union `Scalar(ScalarKind) | Ref(RefType)`. -/
inductive JType where
  | ref (r : RefType)
  | scalar (s : ScalarType)

/-- A Rust identifier minted by the translator.  The source mints identifiers
with `Ident::new(&format!("J{}", t))` (host representative of a declared Java
type parameter `t`, `java_type_parameter_ident`) and
`Ident::new(&format!("P{}", i))` (fresh capture, `Signature::fresh_generic`).
These two string families are disjoint (distinct first letter) and each is
injective in its payload, so we model an identifier as the tag plus payload;
identifier equality coincides with the Rust string equality. -/
inductive JIdent where
  | j (t : String)
  | p (i : Nat)
deriving DecidableEq, Repr

/-- The Rust type expression tokens produced by `Signature::java_ref_ty` /
`java_scalar_ty`: a module path with optional generic arguments
(`class_ref_ty` via `to_module_name`), `java::JavaArray<e>`, a generic
parameter occurrence, or a scalar type name. -/
inductive RustTy where
  | path (pkgs : List String) (name : String) (args : List RustTy)
  | javaArray (elem : RustTy)
  | param (g : JIdent)
  | scalar (s : String)

/-- A where-bound pushed by `Signature::push_where_bound`; the only shape the
source pushes is `#g : AsRef<#e>` (codegen.rs line 300). -/
structure WhereBound where
  g : JIdent
  asRefOf : RustTy

/-- Trait tokens returned by `input_trait` / `output_trait`:
`IntoJava<t>`, `IntoScalar<t>`, `IntoOptLocal<t>`. -/
inductive RustTrait where
  | intoJava (t : RustTy)
  | intoScalar (t : RustTy)
  | intoOptLocal (t : RustTy)

/-- Failures of the translator.  `unsupportedWildcard` is the
`UnsupportedWildcard` error value of codegen.rs; `assertFail` models the
`assert!(self.generics.contains(&ident))` panic in the `TypeParameter` arm
(codegen.rs line 294) — a Rust panic aborts the surrounding computation, it
is never caught by the `.ok()` filter in `into_tokens`. -/
inductive TransErr where
  | unsupportedWildcard
  | assertFail
deriving DecidableEq, Repr

/-- Embeds `java_type_parameter_ident` (codegen.rs line 346):
`Ident::new(&format!("J{}", t))`. -/
def java_type_parameter_ident (t : String) : JIdent := .j t

/-- Embeds `struct Signature` (codegen.rs line 175), minus the `Span`, which carries
no semantic content. -/
structure Signature where
  generics : List JIdent
  where_bounds : List WhereBound
  capture_generics : Bool

/-- Embeds `Signature::new` (codegen.rs line 196): start with empty lists,
`capture_generics: true`, then push the host ident of every declared
generic. -/
def Signature.new (declared : List String) : Signature :=
  { generics := declared.map java_type_parameter_ident
    where_bounds := []
    capture_generics := true }

/-- Embeds `Signature::fresh_generic` (codegen.rs line 225).  Fails with
`UnsupportedWildcard` when capture is disallowed; otherwise mints
`P{generics.len()}` and pushes it.  The Rust method takes `&mut self`, so the
embedding returns the updated state alongside the result. -/
def Signature.fresh_generic (s : Signature) : Signature × Except TransErr JIdent :=
  if !s.capture_generics then
    (s, .error .unsupportedWildcard)
  else
    let ident : JIdent := .p s.generics.length
    ({ s with generics := s.generics ++ [ident] }, .ok ident)

/-- Embeds `Signature::push_where_bound` (codegen.rs line 242). -/
def Signature.push_where_bound (s : Signature) (b : WhereBound) : Signature :=
  { s with where_bounds := s.where_bounds ++ [b] }

/-- Embeds `Signature::java_scalar_ty` (codegen.rs line 333). -/
def java_scalar_ty (ty : ScalarType) : RustTy :=
  match ty with
  | .int => .scalar ("i32")
  | .long => .scalar ("i64")
  | .short => .scalar ("i16")
  | .byte => .scalar ("i8")
  | .f64 => .scalar ("f64")
  | .f32 => .scalar ("f32")
  | .boolean => .scalar ("bool")

/-- Split a nonempty list into its leading elements and its last element:
`rust_name.split_last()` (codegen.rs line 363), with the unreachable empty
case mapped to a dummy. -/
def splitLast : List String → List String × String
  | [] => ([], "")
  | [x] => ([], x)
  | x :: y :: xs =>
    let r := splitLast (y :: xs)
    (x :: r.1, r.2)

/-- Embeds `IdExt::to_module_name` (codegen.rs line 361): split the dotted Java name,
last segment is the struct name, the rest the module path. -/
def to_module_name (name : String) : List String × String :=
  splitLast (name.splitOn ("."))

mutual

/-- Embeds `Signature::java_ref_ty` (codegen.rs line 285).  State is threaded
explicitly because the Rust method mutates `&mut self`; on error the state at
the failure point is returned, matching the Rust `?` propagation. -/
def java_ref_ty (s : Signature) : RefType → Signature × Except TransErr RustTy
  | .class_ name generics => class_ref_ty s name generics
  | .array e =>
    match java_ref_ty s e with
    | (s', .ok t) => (s', .ok (.javaArray t))
    | (s', .error err) => (s', .error err)
  | .typeParameter t =>
    let ident := java_type_parameter_ident t
    if s.generics.contains ident then (s, .ok (.param ident))
    else (s, .error .assertFail)
  | .extends_ inner =>
    match s.fresh_generic with
    | (s₁, .ok g) =>
      match java_ref_ty s₁ inner with
      | (s₂, .ok e) => (s₂.push_where_bound ⟨g, e⟩, .ok (.param g))
      | (s₂, .error err) => (s₂, .error err)
    | (s₁, .error err) => (s₁, .error err)
  | .super_ _ =>
    match s.fresh_generic with
    | (s₁, .ok g) => (s₁, .ok (.param g))
    | (s₁, .error err) => (s₁, .error err)
  | .wildcard =>
    match s.fresh_generic with
    | (s₁, .ok g) => (s₁, .ok (.param g))
    | (s₁, .error err) => (s₁, .error err)

/-- Embeds `Signature::class_ref_ty` (codegen.rs line 315). -/
def class_ref_ty (s : Signature) (name : String) (generics : List RefType) :
    Signature × Except TransErr RustTy :=
  let mn := to_module_name name
  if generics.length = 0 then
    (s, .ok (.path mn.1 mn.2 []))
  else
    match java_ref_tys s generics with
    | (s', .ok rs) => (s', .ok (.path mn.1 mn.2 rs))
    | (s', .error err) => (s', .error err)

/-- The `collect::<Result<Vec<_>, _>>()` over `java_ref_ty` used by
`class_ref_ty` (codegen.rs line 321): translate each element left to right,
stopping at the first error. -/
def java_ref_tys (s : Signature) : List RefType → Signature × Except TransErr (List RustTy)
  | [] => (s, .ok [])
  | t :: ts =>
    match java_ref_ty s t with
    | (s', .ok r) =>
      match java_ref_tys s' ts with
      | (s'', .ok rs) => (s'', .ok (r :: rs))
      | (s'', .error err) => (s'', .error err)
    | (s', .error err) => (s', .error err)

end


/-- Embeds `Signature::input_trait` (codegen.rs line 248): `IntoJava<t>` for
references, `IntoScalar<t>` for scalars. -/
def Signature.input_trait (s : Signature) (ty : JType) :
    Signature × Except TransErr RustTrait :=
  match ty with
  | .ref r =>
    match java_ref_ty s r with
    | (s', .ok t) => (s', .ok (.intoJava t))
    | (s', .error err) => (s', .error err)
  | .scalar sc => (s, .ok (.intoScalar (java_scalar_ty sc)))

/-- Embeds `Signature::output_trait` (codegen.rs line 263): wraps the translation in
`forbid_capture` (codegen.rs line 212), which saves `capture_generics`, sets
it to `false` for the duration of the body, and restores the saved value
afterwards — also on the error path, since the Rust closure returns a
`Result` rather than unwinding. -/
def Signature.output_trait (s : Signature) (ty : JType) :
    Signature × Except TransErr RustTrait :=
  let v := s.capture_generics
  let s₀ : Signature := { s with capture_generics := false }
  match ty with
  | .ref r =>
    match java_ref_ty s₀ r with
    | (s', .ok t) => ({ s' with capture_generics := v }, .ok (.intoOptLocal t))
    | (s', .error err) => ({ s' with capture_generics := v }, .error err)
  | .scalar sc => ({ s₀ with capture_generics := v }, .ok (.intoScalar (java_scalar_ty sc)))

/-- Modelled from the spec: `Constructor` from class_info.rs, §6: an ordered
list of argument types plus an opaque native invocation descriptor string. -/
structure Constructor where
  args : List JType
  descriptor : String

/-- Modelled from the spec: the part of `ClassInfo` from class_info.rs that
`SpannedClassInfo::into_tokens` consumes, §6: the class name, the ordered
declared generic parameter identifiers, and the constructor facts. -/
structure ClassInfo where
  name : String
  generics : List String
  constructors : List Constructor

/-- The contract of one generated constructor binding assembled by
`SpannedClassInfo::constructor` (codegen.rs line 79): the `impl` block's
generic parameter list (`generic_names`, the class-declared generics), the
per-argument `impl` trait bounds, and the native invocation descriptor
spliced into the body. -/
structure CtorBinding where
  generics : List JIdent
  input_traits : List RustTrait
  descriptor : String

/-- The `collect::<Result<Vec<_>, _>>()` over `input_trait` in
`SpannedClassInfo::constructor` (codegen.rs line 82): translate each argument
left to right, stopping at the first error. -/
def Signature.input_traits (s : Signature) :
    List JType → Signature × Except TransErr (List RustTrait)
  | [] => (s, .ok [])
  | ty :: tys =>
    match s.input_trait ty with
    | (s', .ok t) =>
      match s'.input_traits tys with
      | (s'', .ok ts) => (s'', .ok (t :: ts))
      | (s'', .error err) => (s'', .error err)
    | (s', .error err) => (s', .error err)

/-- Embeds `SpannedClassInfo::constructor` (codegen.rs line 79): build a fresh
`Signature` from the class's declared generics, translate every argument as
an input, and on success assemble the generated binding. -/
def ClassInfo.constructor (info : ClassInfo) (c : Constructor) :
    Except TransErr CtorBinding :=
  let sig := Signature.new info.generics
  match sig.input_traits c.args with
  | (_, .ok ts) =>
    .ok { generics := info.generics.map java_type_parameter_ident
          input_traits := ts
          descriptor := c.descriptor }
  | (_, .error err) => .error err

/-- The constructor-collection loop in `SpannedClassInfo::into_tokens`
(codegen.rs line 23): `flat_map(|c| self.constructor(c).ok())`.  The `.ok()`
filter silently drops a constructor whose translation failed with
`UnsupportedWildcard`; the `assert!` panic modelled by `TransErr.assertFail`
is not a `Result` value in Rust and aborts the whole iteration, which the
embedding renders as `Except.error ()`. -/
def collectCtors (info : ClassInfo) : List Constructor → Except Unit (List CtorBinding)
  | [] => .ok []
  | c :: cs =>
    match info.constructor c with
    | .ok b =>
      match collectCtors info cs with
      | .ok l => .ok (b :: l)
      | .error e => .error e
    | .error .unsupportedWildcard => collectCtors info cs
    | .error .assertFail => .error ()

/-- The constructor bindings emitted by `SpannedClassInfo::into_tokens`
(codegen.rs line 18). -/
def ClassInfo.into_tokens_constructors (info : ClassInfo) :
    Except Unit (List CtorBinding) :=
  collectCtors info info.constructors

/-! ## The freshness invariant on translation contexts -/

/-- A translation context is fresh-safe when no capture identifier with index
at or beyond the current length of `generics` occurs in `generics`.  This is
the invariant behind §3's freshness guarantee: `fresh_generic` mints
`P{generics.len()}`, so under this invariant the minted identifier collides
with nothing already in the list. -/
def FreshSafe (s : Signature) : Prop :=
  ∀ k, s.generics.length ≤ k → JIdent.p k ∉ s.generics

/-- Anatomy of `fresh_generic` when capture is allowed: it mints
`P{generics.len()}` and appends it. -/
theorem fresh_generic_ok (s : Signature) (h : s.capture_generics = true) :
    s.fresh_generic =
      ({ s with generics := s.generics ++ [.p s.generics.length] },
       .ok (.p s.generics.length)) := by
  simp [Signature.fresh_generic, h]

/-- Anatomy of `fresh_generic` when capture is disallowed: it fails with the
unsupported-wildcard signal and leaves the context unchanged. -/
theorem fresh_generic_forbidden (s : Signature) (h : s.capture_generics = false) :
    s.fresh_generic = (s, .error .unsupportedWildcard) := by
  simp [Signature.fresh_generic, h]

/-- Lemma: `java_ref_ty` (and its helpers) preserve the capture flag and only ever
append to the generics and where-bound lists. -/
theorem java_ref_ty_state (s : Signature) (t : RefType) :
    (java_ref_ty s t).1.capture_generics = s.capture_generics ∧
    (∃ e, (java_ref_ty s t).1.generics = s.generics ++ e) ∧
    (∃ e, (java_ref_ty s t).1.where_bounds = s.where_bounds ++ e) := by
  induction s, t using java_ref_ty.induct
  case motive2 s name generics =>
    exact
      (class_ref_ty s name generics).1.capture_generics = s.capture_generics ∧
      (∃ e, (class_ref_ty s name generics).1.generics = s.generics ++ e) ∧
      (∃ e, (class_ref_ty s name generics).1.where_bounds = s.where_bounds ++ e)
  case motive3 s ts =>
    exact
      (java_ref_tys s ts).1.capture_generics = s.capture_generics ∧
      (∃ e, (java_ref_tys s ts).1.generics = s.generics ++ e) ∧
      (∃ e, (java_ref_tys s ts).1.where_bounds = s.where_bounds ++ e)
  case case1 s name generics ih =>
    simpa [java_ref_ty] using ih
  case case2 s e s' t heq ih =>
    simp only [java_ref_ty, heq]
    simpa [heq] using ih
  case case3 s e s' err heq ih =>
    simp only [java_ref_ty, heq]
    simpa [heq] using ih
  case case4 s t hmem =>
    simp at hmem
    simp [java_ref_ty, hmem]
  case case5 s t hmem =>
    simp at hmem
    simp [java_ref_ty, hmem]
  case case6 s inner s₁ g hfg s' t heq ih =>
    simp only [java_ref_ty, hfg, heq]
    have h1 : s₁.capture_generics = s.capture_generics ∧
        (∃ e, s₁.generics = s.generics ++ e) ∧ s₁.where_bounds = s.where_bounds := by
      by_cases hc : s.capture_generics
      · rw [fresh_generic_ok s hc] at hfg
        obtain ⟨h, -⟩ := Prod.mk.injEq .. ▸ hfg
        subst h
        exact ⟨by simp [hc], ⟨_, rfl⟩, rfl⟩
      · rw [fresh_generic_forbidden s (by simpa using hc)] at hfg
        simp at hfg
    rw [heq] at ih
    dsimp only at ih
    obtain ⟨hc1, ⟨e1, hg1⟩, hwb1⟩ := h1
    obtain ⟨hc2, ⟨e2, hg2⟩, ⟨e3, hwb2⟩⟩ := ih
    refine ⟨by simp [Signature.push_where_bound, hc2, hc1], ?_, ?_⟩
    · exact ⟨e1 ++ e2, by simp [Signature.push_where_bound, hg2, hg1]⟩
    · exact ⟨e3 ++ [⟨g, t⟩], by simp [Signature.push_where_bound, hwb2, hwb1]⟩
  case case7 s inner s₁ g hfg s' err heq ih =>
    simp only [java_ref_ty, hfg, heq]
    have h1 : s₁.capture_generics = s.capture_generics ∧
        (∃ e, s₁.generics = s.generics ++ e) ∧ s₁.where_bounds = s.where_bounds := by
      by_cases hc : s.capture_generics
      · rw [fresh_generic_ok s hc] at hfg
        obtain ⟨h, -⟩ := Prod.mk.injEq .. ▸ hfg
        subst h
        exact ⟨by simp [hc], ⟨_, rfl⟩, rfl⟩
      · rw [fresh_generic_forbidden s (by simpa using hc)] at hfg
        simp at hfg
    rw [heq] at ih
    dsimp only at ih
    obtain ⟨hc1, ⟨e1, hg1⟩, hwb1⟩ := h1
    obtain ⟨hc2, ⟨e2, hg2⟩, ⟨e3, hwb2⟩⟩ := ih
    refine ⟨by simp [hc2, hc1], ⟨e1 ++ e2, by simp [hg2, hg1]⟩,
      ⟨e3, by simp [hwb2, hwb1]⟩⟩
  case case8 s inner s₁ err hfg =>
    simp only [java_ref_ty, hfg]
    by_cases hc : s.capture_generics
    · rw [fresh_generic_ok s hc] at hfg
      simp at hfg
    · rw [fresh_generic_forbidden s (by simpa using hc)] at hfg
      obtain ⟨h, -⟩ := Prod.mk.injEq .. ▸ hfg
      subst h
      exact ⟨rfl, ⟨[], by simp⟩, ⟨[], by simp⟩⟩
  case case9 s inner s₁ g hfg =>
    simp only [java_ref_ty, hfg]
    by_cases hc : s.capture_generics
    · rw [fresh_generic_ok s hc] at hfg
      obtain ⟨h, -⟩ := Prod.mk.injEq .. ▸ hfg
      subst h
      exact ⟨by simp [hc], ⟨_, rfl⟩, ⟨[], by simp⟩⟩
    · rw [fresh_generic_forbidden s (by simpa using hc)] at hfg
      simp at hfg
  case case10 s inner s₁ err hfg =>
    simp only [java_ref_ty, hfg]
    by_cases hc : s.capture_generics
    · rw [fresh_generic_ok s hc] at hfg
      simp at hfg
    · rw [fresh_generic_forbidden s (by simpa using hc)] at hfg
      obtain ⟨h, -⟩ := Prod.mk.injEq .. ▸ hfg
      subst h
      exact ⟨rfl, ⟨[], by simp⟩, ⟨[], by simp⟩⟩
  case case11 s s₁ g hfg =>
    simp only [java_ref_ty, hfg]
    by_cases hc : s.capture_generics
    · rw [fresh_generic_ok s hc] at hfg
      obtain ⟨h, -⟩ := Prod.mk.injEq .. ▸ hfg
      subst h
      exact ⟨by simp [hc], ⟨_, rfl⟩, ⟨[], by simp⟩⟩
    · rw [fresh_generic_forbidden s (by simpa using hc)] at hfg
      simp at hfg
  case case12 s s₁ err hfg =>
    simp only [java_ref_ty, hfg]
    by_cases hc : s.capture_generics
    · rw [fresh_generic_ok s hc] at hfg
      simp at hfg
    · rw [fresh_generic_forbidden s (by simpa using hc)] at hfg
      obtain ⟨h, -⟩ := Prod.mk.injEq .. ▸ hfg
      subst h
      exact ⟨rfl, ⟨[], by simp⟩, ⟨[], by simp⟩⟩
  case case13 s name generics hlen =>
    simp [class_ref_ty, hlen]
  case case14 s name generics hlen s' rs heq ih =>
    simp only [class_ref_ty, hlen]
    simp only [if_neg hlen, heq]
    simpa [heq] using ih
  case case15 s name generics hlen s' err heq ih =>
    simp only [class_ref_ty, hlen]
    simp only [if_neg hlen, heq]
    simpa [heq] using ih
  case case16 s =>
    simp [java_ref_tys]
  case case17 s t ts s' r heq s'' rs heq2 ih1 ih2 =>
    simp only [java_ref_tys, heq, heq2]
    rw [heq] at ih1; rw [heq2] at ih2
    dsimp only at ih1
    dsimp only at ih2
    obtain ⟨hc1, ⟨e1, hg1⟩, ⟨e2, hwb1⟩⟩ := ih1
    obtain ⟨hc2, ⟨e3, hg2⟩, ⟨e4, hwb2⟩⟩ := ih2
    exact ⟨by simp [hc2, hc1], ⟨e1 ++ e3, by simp [hg2, hg1]⟩,
      ⟨e2 ++ e4, by simp [hwb2, hwb1]⟩⟩
  case case18 s t ts s' r heq s'' err heq2 ih1 ih2 =>
    simp only [java_ref_tys, heq, heq2]
    rw [heq] at ih1; rw [heq2] at ih2
    dsimp only at ih1
    dsimp only at ih2
    obtain ⟨hc1, ⟨e1, hg1⟩, ⟨e2, hwb1⟩⟩ := ih1
    obtain ⟨hc2, ⟨e3, hg2⟩, ⟨e4, hwb2⟩⟩ := ih2
    exact ⟨by simp [hc2, hc1], ⟨e1 ++ e3, by simp [hg2, hg1]⟩,
      ⟨e2 ++ e4, by simp [hwb2, hwb1]⟩⟩
  case case19 s t ts s' err heq ih =>
    simp only [java_ref_tys, heq]
    rw [heq] at ih
    dsimp only at ih
    exact ih

/-- While capture is disallowed, `java_ref_ty` never mutates the context:
the only mutations in the translator are `fresh_generic` (which fails
first when capture is disallowed) and `push_where_bound` (which is only
reached after a successful `fresh_generic`). -/
theorem java_ref_ty_forbidden :
    ∀ (s : Signature) (t : RefType),
      s.capture_generics = false → (java_ref_ty s t).1 = s := by
  intro s t
  induction s, t using java_ref_ty.induct
  case motive2 s name generics =>
    exact s.capture_generics = false → (class_ref_ty s name generics).1 = s
  case motive3 s ts =>
    exact s.capture_generics = false → (java_ref_tys s ts).1 = s
  case case1 s name generics ih =>
    intro h
    simpa [java_ref_ty] using ih h
  case case2 s e s' t heq ih =>
    intro h
    have := ih h
    rw [heq] at this
    dsimp only at this
    simp only [java_ref_ty, heq]
    exact this
  case case3 s e s' err heq ih =>
    intro h
    have := ih h
    rw [heq] at this
    dsimp only at this
    simp only [java_ref_ty, heq]
    exact this
  case case4 s t hmem =>
    intro h
    simp at hmem
    simp [java_ref_ty, hmem]
  case case5 s t hmem =>
    intro h
    simp at hmem
    simp [java_ref_ty, hmem]
  case case6 s inner s₁ g hfg s' t heq ih =>
    intro h
    rw [fresh_generic_forbidden s h] at hfg
    simp at hfg
  case case7 s inner s₁ g hfg s' err heq ih =>
    intro h
    rw [fresh_generic_forbidden s h] at hfg
    simp at hfg
  case case8 s inner s₁ err hfg =>
    intro h
    simp [java_ref_ty, fresh_generic_forbidden s h]
  case case9 s inner s₁ g hfg =>
    intro h
    rw [fresh_generic_forbidden s h] at hfg
    simp at hfg
  case case10 s inner s₁ err hfg =>
    intro h
    simp [java_ref_ty, fresh_generic_forbidden s h]
  case case11 s s₁ g hfg =>
    intro h
    rw [fresh_generic_forbidden s h] at hfg
    simp at hfg
  case case12 s s₁ err hfg =>
    intro h
    simp [java_ref_ty, fresh_generic_forbidden s h]
  case case13 s name generics hlen =>
    intro h
    simp [class_ref_ty, hlen]
  case case14 s name generics hlen s' rs heq ih =>
    intro h
    have := ih h
    rw [heq] at this
    dsimp only at this
    simp only [class_ref_ty, if_neg hlen, heq]
    exact this
  case case15 s name generics hlen s' err heq ih =>
    intro h
    have := ih h
    rw [heq] at this
    dsimp only at this
    simp only [class_ref_ty, if_neg hlen, heq]
    exact this
  case case16 s =>
    intro h
    simp [java_ref_tys]
  case case17 s t ts s' r heq s'' rs heq2 ih1 ih2 =>
    intro h
    have h1 := ih1 h
    rw [heq] at h1
    dsimp only at h1
    subst h1
    have h2 := ih2 h
    rw [heq2] at h2
    dsimp only at h2
    simp only [java_ref_tys, heq, heq2]
    exact h2
  case case18 s t ts s' r heq s'' err heq2 ih1 ih2 =>
    intro h
    have h1 := ih1 h
    rw [heq] at h1
    dsimp only at h1
    subst h1
    have h2 := ih2 h
    rw [heq2] at h2
    dsimp only at h2
    simp only [java_ref_tys, heq, heq2]
    exact h2
  case case19 s t ts s' err heq ih =>
    intro h
    have h1 := ih h
    rw [heq] at h1
    dsimp only at h1
    simp only [java_ref_tys, heq]
    exact h1

/-- Appending the minted capture identifier preserves fresh-safety. -/
theorem freshSafe_push (s : Signature) (h : FreshSafe s) :
    FreshSafe { s with generics := s.generics ++ [JIdent.p s.generics.length] } := by
  intro k hk
  simp only [List.length_append, List.length_cons, List.length_nil] at hk
  simp only [List.mem_append, List.mem_singleton]
  push_neg
  refine ⟨h k (by omega), ?_⟩
  intro heq
  injection heq with h'
  omega

/-- Lemma: `push_where_bound` does not touch the generics list, so it preserves
fresh-safety. -/
theorem freshSafe_push_where_bound (s : Signature) (b : WhereBound)
    (h : FreshSafe s) : FreshSafe (s.push_where_bound b) := by
  intro k hk
  exact h k hk

/-- A context freshly built by `Signature::new` is fresh-safe: its generics
are all host representatives `J{t}` of declared generics, never capture
identifiers `P{i}`. -/
theorem freshSafe_new (D : List String) : FreshSafe (Signature.new D) := by
  intro k hk hmem
  simp [Signature.new, java_type_parameter_ident, List.mem_map] at hmem

/-- Under fresh-safety, the identifier `fresh_generic` is about to mint does
not occur in the generics list (which holds the declared generics' host
representatives followed by every previously captured identifier). -/
theorem fresh_mint_not_mem (s : Signature) (h : FreshSafe s) :
    JIdent.p s.generics.length ∉ s.generics :=
  h _ le_rfl

/-- Lemma: `java_ref_ty` preserves fresh-safety of the context. -/
theorem freshSafe_java_ref_ty :
    ∀ (s : Signature) (t : RefType),
      FreshSafe s → FreshSafe (java_ref_ty s t).1 := by
  intro s t
  induction s, t using java_ref_ty.induct
  case motive2 s name generics =>
    exact FreshSafe s → FreshSafe (class_ref_ty s name generics).1
  case motive3 s ts =>
    exact FreshSafe s → FreshSafe (java_ref_tys s ts).1
  case case1 s name generics ih =>
    intro h
    simpa [java_ref_ty] using ih h
  case case2 s e s' t heq ih =>
    intro h
    have := ih h
    rw [heq] at this
    dsimp only at this
    simp only [java_ref_ty, heq]
    exact this
  case case3 s e s' err heq ih =>
    intro h
    have := ih h
    rw [heq] at this
    dsimp only at this
    simp only [java_ref_ty, heq]
    exact this
  case case4 s t hmem =>
    intro h
    simp at hmem
    simpa [java_ref_ty, hmem] using h
  case case5 s t hmem =>
    intro h
    simp at hmem
    simpa [java_ref_ty, hmem] using h
  case case6 s inner s₁ g hfg s' t heq ih =>
    intro h
    have hc : s.capture_generics = true := by
      by_contra hc
      rw [fresh_generic_forbidden s (by simpa using hc)] at hfg
      simp at hfg
    rw [fresh_generic_ok s hc] at hfg
    obtain ⟨h1, -⟩ := Prod.mk.injEq .. ▸ hfg
    subst h1
    have hrec := ih (freshSafe_push s h)
    rw [heq] at hrec
    dsimp only at hrec
    simp only [java_ref_ty, fresh_generic_ok s hc, heq]
    exact freshSafe_push_where_bound _ _ hrec
  case case7 s inner s₁ g hfg s' err heq ih =>
    intro h
    have hc : s.capture_generics = true := by
      by_contra hc
      rw [fresh_generic_forbidden s (by simpa using hc)] at hfg
      simp at hfg
    rw [fresh_generic_ok s hc] at hfg
    obtain ⟨h1, -⟩ := Prod.mk.injEq .. ▸ hfg
    subst h1
    have hrec := ih (freshSafe_push s h)
    rw [heq] at hrec
    dsimp only at hrec
    simp only [java_ref_ty, fresh_generic_ok s hc, heq]
    exact hrec
  case case8 s inner s₁ err hfg =>
    intro h
    by_cases hc : s.capture_generics
    · rw [fresh_generic_ok s hc] at hfg
      simp at hfg
    · simpa [java_ref_ty, fresh_generic_forbidden s (by simpa using hc)] using h
  case case9 s inner s₁ g hfg =>
    intro h
    by_cases hc : s.capture_generics
    · simp only [java_ref_ty, fresh_generic_ok s hc]
      exact freshSafe_push s h
    · rw [fresh_generic_forbidden s (by simpa using hc)] at hfg
      simp at hfg
  case case10 s inner s₁ err hfg =>
    intro h
    by_cases hc : s.capture_generics
    · rw [fresh_generic_ok s hc] at hfg
      simp at hfg
    · simpa [java_ref_ty, fresh_generic_forbidden s (by simpa using hc)] using h
  case case11 s s₁ g hfg =>
    intro h
    by_cases hc : s.capture_generics
    · simp only [java_ref_ty, fresh_generic_ok s hc]
      exact freshSafe_push s h
    · rw [fresh_generic_forbidden s (by simpa using hc)] at hfg
      simp at hfg
  case case12 s s₁ err hfg =>
    intro h
    by_cases hc : s.capture_generics
    · rw [fresh_generic_ok s hc] at hfg
      simp at hfg
    · simpa [java_ref_ty, fresh_generic_forbidden s (by simpa using hc)] using h
  case case13 s name generics hlen =>
    intro h
    simpa [class_ref_ty, hlen] using h
  case case14 s name generics hlen s' rs heq ih =>
    intro h
    have := ih h
    rw [heq] at this
    dsimp only at this
    simp only [class_ref_ty, if_neg hlen, heq]
    exact this
  case case15 s name generics hlen s' err heq ih =>
    intro h
    have := ih h
    rw [heq] at this
    dsimp only at this
    simp only [class_ref_ty, if_neg hlen, heq]
    exact this
  case case16 s =>
    intro h
    simpa [java_ref_tys] using h
  case case17 s t ts s' r heq s'' rs heq2 ih1 ih2 =>
    intro h
    have h1 := ih1 h
    rw [heq] at h1
    dsimp only at h1
    have h2 := ih2 h1
    rw [heq2] at h2
    dsimp only at h2
    simp only [java_ref_tys, heq, heq2]
    exact h2
  case case18 s t ts s' r heq s'' err heq2 ih1 ih2 =>
    intro h
    have h1 := ih1 h
    rw [heq] at h1
    dsimp only at h1
    have h2 := ih2 h1
    rw [heq2] at h2
    dsimp only at h2
    simp only [java_ref_tys, heq, heq2]
    exact h2
  case case19 s t ts s' err heq ih =>
    intro h
    have h1 := ih h
    rw [heq] at h1
    dsimp only at h1
    simp only [java_ref_tys, heq]
    exact h1

/-- The `TypeParameter` arm of `java_ref_ty` when the membership assertion
holds: returns the host representative, context untouched. -/
theorem java_ref_ty_typeParameter (s : Signature) (t : String)
    (h : java_type_parameter_ident t ∈ s.generics) :
    java_ref_ty s (.typeParameter t) =
      (s, .ok (.param (java_type_parameter_ident t))) := by
  simp [java_ref_ty, h]

/-- The `TypeParameter` arm of `java_ref_ty` when the membership assertion
fails: the `assert!` panics (modelled as the `assertFail` error), context
untouched. -/
theorem java_ref_ty_typeParameter_not (s : Signature) (t : String)
    (h : java_type_parameter_ident t ∉ s.generics) :
    java_ref_ty s (.typeParameter t) = (s, .error .assertFail) := by
  simp [java_ref_ty, h]

mutual

/-- Every `TypeParameter(t)` occurring in a position that `java_ref_ty`
actually translates has its host representative `J{t}` in the given generics
list.  The inner type of `Super` is exempt because the `RefType::Super` arm
of `java_ref_ty` discards it without translating it (codegen.rs line 303). -/
def tpDeclared (g : List JIdent) : RefType → Bool
  | .class_ _ generics => tpDeclaredList g generics
  | .array e => tpDeclared g e
  | .typeParameter t => g.contains (java_type_parameter_ident t)
  | .extends_ inner => tpDeclared g inner
  | .super_ _ => true
  | .wildcard => true

/-- Lemma: `tpDeclared` on every element of a list. -/
def tpDeclaredList (g : List JIdent) : List RefType → Bool
  | [] => true
  | t :: ts => tpDeclared g t && tpDeclaredList g ts

end

/-- Declaredness is monotone in the generics list: growing the list (as
`fresh_generic` does) cannot break it. -/
theorem tpDeclared_mono (g : List JIdent) (t : RefType)
    (hd : tpDeclared g t = true) (e : List JIdent) :
    tpDeclared (g ++ e) t = true := by
  revert hd
  refine tpDeclared.induct g
    (fun t => tpDeclared g t = true → tpDeclared (g ++ e) t = true)
    (fun ts => tpDeclaredList g ts = true → tpDeclaredList (g ++ e) ts = true)
    ?_ ?_ ?_ ?_ ?_ ?_ ?_ ?_ t
  · intro name generics ih h
    simp only [tpDeclared] at h ⊢
    exact ih h
  · intro a ih h
    simp only [tpDeclared] at h ⊢
    exact ih h
  · intro a h
    simp only [tpDeclared] at h ⊢
    simp at h ⊢
    exact Or.inl h
  · intro inner ih h
    simp only [tpDeclared] at h ⊢
    exact ih h
  · intro inner h
    simp [tpDeclared]
  · intro h
    simp [tpDeclared]
  · intro h
    simp [tpDeclaredList]
  · intro t ts ih1 ih2 h
    simp only [tpDeclaredList, Bool.and_eq_true] at h ⊢
    exact ⟨ih1 h.1, ih2 h.2⟩

/-- List version of `tpDeclared_mono`. -/
theorem tpDeclaredList_mono (g : List JIdent) (ts : List RefType)
    (hd : tpDeclaredList g ts = true) (e : List JIdent) :
    tpDeclaredList (g ++ e) ts = true := by
  induction ts with
  | nil => simp [tpDeclaredList]
  | cons t ts ih =>
    simp only [tpDeclaredList, Bool.and_eq_true] at hd ⊢
    exact ⟨tpDeclared_mono g t hd.1 e, ih hd.2⟩

/-- In a capture-allowed context whose type parameters are all declared,
`java_ref_ty` succeeds: the only failure sources are `fresh_generic` in a
capture-disallowed context and the `TypeParameter` membership assertion. -/
theorem java_ref_ty_allowed_ok :
    ∀ (s : Signature) (t : RefType),
      s.capture_generics = true → tpDeclared s.generics t = true →
      ∃ s' rt, java_ref_ty s t = (s', .ok rt) := by
  intro s t
  induction s, t using java_ref_ty.induct
  case motive2 s name generics =>
    exact s.capture_generics = true → tpDeclaredList s.generics generics = true →
      ∃ s' rs, class_ref_ty s name generics = (s', .ok rs)
  case motive3 s ts =>
    exact s.capture_generics = true → tpDeclaredList s.generics ts = true →
      ∃ s' rs, java_ref_tys s ts = (s', .ok rs)
  case case1 s name generics ih =>
    intro hc hd
    simp only [tpDeclared] at hd
    obtain ⟨s', rs, h⟩ := ih hc hd
    exact ⟨s', rs, by simp [java_ref_ty, h]⟩
  case case2 s e s' t heq ih =>
    intro hc hd
    exact ⟨s', .javaArray t, by simp [java_ref_ty, heq]⟩
  case case3 s e s' err heq ih =>
    intro hc hd
    simp only [tpDeclared] at hd
    obtain ⟨s'', rt, h⟩ := ih hc hd
    rw [heq] at h
    simp at h
  case case4 s t hmem =>
    intro hc hd
    simp at hmem
    exact ⟨_, _, java_ref_ty_typeParameter _ _ hmem⟩
  case case5 s t hmem =>
    intro hc hd
    simp only [tpDeclared] at hd
    simp at hmem hd
    exact absurd hd hmem
  case case6 s inner s₁ g hfg s' t heq ih =>
    intro hc hd
    refine ⟨s'.push_where_bound ⟨g, t⟩, .param g, ?_⟩
    simp [java_ref_ty, hfg, heq]
  case case7 s inner s₁ g hfg s' err heq ih =>
    intro hc hd
    simp only [tpDeclared] at hd
    rw [fresh_generic_ok s hc] at hfg
    obtain ⟨h1, -⟩ := Prod.mk.injEq .. ▸ hfg
    subst h1
    obtain ⟨s'', rt, h⟩ := ih (by simpa using hc)
      (by simpa using tpDeclared_mono s.generics inner hd [JIdent.p s.generics.length])
    rw [heq] at h
    simp at h
  case case8 s inner s₁ err hfg =>
    intro hc hd
    rw [fresh_generic_ok s hc] at hfg
    simp at hfg
  case case9 s inner s₁ g hfg =>
    intro hc hd
    exact ⟨s₁, .param g, by simp [java_ref_ty, hfg]⟩
  case case10 s inner s₁ err hfg =>
    intro hc hd
    rw [fresh_generic_ok s hc] at hfg
    simp at hfg
  case case11 s s₁ g hfg =>
    intro hc hd
    exact ⟨s₁, .param g, by simp [java_ref_ty, hfg]⟩
  case case12 s s₁ err hfg =>
    intro hc hd
    rw [fresh_generic_ok s hc] at hfg
    simp at hfg
  case case13 s name generics hlen =>
    intro hc hd
    refine ⟨s, .path (to_module_name name).1 (to_module_name name).2 [], ?_⟩
    simp [class_ref_ty, hlen]
  case case14 s name generics hlen s' rs heq ih =>
    intro hc hd
    refine ⟨s', .path (to_module_name name).1 (to_module_name name).2 rs, ?_⟩
    simp [class_ref_ty, if_neg hlen, heq]
  case case15 s name generics hlen s' err heq ih =>
    intro hc hd
    obtain ⟨s'', rs, h⟩ := ih hc hd
    rw [heq] at h
    simp at h
  case case16 s =>
    intro hc hd
    exact ⟨s, [], by simp [java_ref_tys]⟩
  case case17 s t ts s' r heq s'' rs heq2 ih1 ih2 =>
    intro hc hd
    exact ⟨s'', r :: rs, by simp [java_ref_tys, heq, heq2]⟩
  case case18 s t ts s' r heq s'' err heq2 ih1 ih2 =>
    intro hc hd
    simp only [tpDeclaredList, Bool.and_eq_true] at hd
    have hstate := java_ref_ty_state s t
    rw [heq] at hstate
    dsimp only at hstate
    obtain ⟨hcap, ⟨e1, hgen⟩, -⟩ := hstate
    have hc' : s'.capture_generics = true := by
      rw [hcap]; exact hc
    have hd' : tpDeclaredList s'.generics ts = true := by
      rw [hgen]
      exact tpDeclaredList_mono s.generics ts hd.2 e1
    obtain ⟨s₃, rs, h⟩ := ih2 hc' hd'
    rw [heq2] at h
    simp at h
  case case19 s t ts s' err heq ih =>
    intro hc hd
    simp only [tpDeclaredList, Bool.and_eq_true] at hd
    obtain ⟨s'', rt, h⟩ := ih hc hd.1
    rw [heq] at h
    simp at h

/-- C1: any `Extends`/`Super`/`Wildcard` reference type translated while
capture is disallowed (the state `output_trait` puts the translator in for
the whole output-position translation) fails with the unsupported-wildcard
signal, and the translation context is returned untouched: nothing is
appended to the captured-generics list or to the where-bound list. -/
theorem C1_output_position_wildcard_fails (s : Signature) (inner : RefType)
    (h : s.capture_generics = false) :
    java_ref_ty s (.extends_ inner) = (s, .error .unsupportedWildcard) ∧
    java_ref_ty s (.super_ inner) = (s, .error .unsupportedWildcard) ∧
    java_ref_ty s RefType.wildcard = (s, .error .unsupportedWildcard) ∧
    s.output_trait (.ref (.extends_ inner)) = (s, .error .unsupportedWildcard) ∧
    s.output_trait (.ref (.super_ inner)) = (s, .error .unsupportedWildcard) ∧
    s.output_trait (.ref RefType.wildcard) = (s, .error .unsupportedWildcard) := by
  have h0 : ({ s with capture_generics := false } : Signature).capture_generics = false := rfl
  have hself : ({ s with capture_generics := s.capture_generics } : Signature) = s := rfl
  refine ⟨?_, ?_, ?_, ?_, ?_, ?_⟩
  · simp [java_ref_ty, fresh_generic_forbidden s h]
  · simp [java_ref_ty, fresh_generic_forbidden s h]
  · simp [java_ref_ty, fresh_generic_forbidden s h]
  · simp [Signature.output_trait, java_ref_ty, fresh_generic_forbidden _ h0]
  · simp [Signature.output_trait, java_ref_ty, fresh_generic_forbidden _ h0]
  · simp [Signature.output_trait, java_ref_ty, fresh_generic_forbidden _ h0]

/-- Witness for C1 at a concrete context and inner type. -/
theorem C1_witness :
    java_ref_ty ⟨[], [], false⟩
        (.extends_ (.class_ ("java.lang.Object") [])) =
      (⟨[], [], false⟩, .error .unsupportedWildcard) ∧
    Signature.output_trait ⟨[], [], false⟩ (.ref RefType.wildcard) =
      (⟨[], [], false⟩, .error .unsupportedWildcard) :=
  have h := C1_output_position_wildcard_fails ⟨[], [], false⟩
    (.class_ ("java.lang.Object") []) rfl
  ⟨h.1, h.2.2.2.2.2⟩

/-- C6: translating `TypeParameter(t)` in a context freshly built from the
owning class's declared generics succeeds and returns the identifier's host
representative exactly when `t` is among the declared generics; otherwise
the membership `assert!` fails (a panic, modelled as `assertFail`, not a
recoverable translation error).  Under the precondition that every
`TypeParameter` is declared, the assertion-failure branch is unreachable. -/
theorem C6_type_parameter_assertion (D : List String) (t : String) :
    (t ∈ D →
      java_ref_ty (Signature.new D) (.typeParameter t) =
        (Signature.new D, .ok (.param (java_type_parameter_ident t)))) ∧
    (t ∉ D →
      java_ref_ty (Signature.new D) (.typeParameter t) =
        (Signature.new D, .error .assertFail)) := by
  constructor
  · intro h
    apply java_ref_ty_typeParameter
    simp only [Signature.new, List.mem_map]
    exact ⟨t, h, rfl⟩
  · intro h
    apply java_ref_ty_typeParameter_not
    simp only [Signature.new, List.mem_map, java_type_parameter_ident]
    rintro ⟨x, hx, hjx⟩
    injection hjx with hxt
    exact h (hxt ▸ hx)

/-- Witness for C6: a declared and an undeclared type parameter. -/
theorem C6_witness :
    java_ref_ty (Signature.new [("T")]) (.typeParameter ("T")) =
      (Signature.new [("T")], .ok (.param (java_type_parameter_ident ("T")))) ∧
    java_ref_ty (Signature.new [("T")]) (.typeParameter ("U")) =
      (Signature.new [("T")], .error .assertFail) :=
  ⟨(C6_type_parameter_assertion [("T")] ("T")).1 (by simp),
   (C6_type_parameter_assertion [("T")] ("U")).2 (by simp)⟩

/-- C4: `Super(inner)` translated while capture is allowed succeeds, appends
exactly one fresh generic identifier (colliding with no declared generic's
host representative and no previously captured identifier) to the context's
generics, and appends no where-bound at all — in asymmetry with `Extends`
(the inner type is not even translated, codegen.rs line 303). -/
theorem C4_super_captures_without_bound (s : Signature) (inner : RefType)
    (hc : s.capture_generics = true) (hf : FreshSafe s) :
    java_ref_ty s (.super_ inner) =
      ({ s with generics := s.generics ++ [JIdent.p s.generics.length] },
       .ok (.param (JIdent.p s.generics.length))) ∧
    JIdent.p s.generics.length ∉ s.generics ∧
    ({ s with generics := s.generics ++ [JIdent.p s.generics.length] }
      : Signature).where_bounds = s.where_bounds := by
  refine ⟨?_, fresh_mint_not_mem s hf, rfl⟩
  simp [java_ref_ty, fresh_generic_ok s hc]

/-- Witness for C4 at a concrete context. -/
theorem C4_witness :
    java_ref_ty (Signature.new [("T")]) (.super_ (.typeParameter ("T"))) =
      ({ Signature.new [("T")] with
          generics := (Signature.new [("T")]).generics ++
            [JIdent.p (Signature.new [("T")]).generics.length] },
       .ok (.param (JIdent.p (Signature.new [("T")]).generics.length))) ∧
    JIdent.p (Signature.new [("T")]).generics.length ∉
      (Signature.new [("T")]).generics :=
  have h := C4_super_captures_without_bound (Signature.new [("T")])
    (.typeParameter ("T")) rfl (freshSafe_new [("T")])
  ⟨h.1, h.2.1⟩

/-- C2: `Extends(inner)` translated while capture is allowed (and with the
type parameters of `inner` declared, the standing precondition of C6)
succeeds, appends exactly one fresh generic identifier — unequal to every
declared generic's host representative and every previously captured
identifier, all of which are in `s.generics` — and appends exactly one
where-bound referencing that identifier and the translation of `inner`. -/
theorem C2_extends_captures_with_bound (s : Signature) (inner : RefType)
    (hc : s.capture_generics = true) (hf : FreshSafe s)
    (hd : tpDeclared s.generics inner = true) :
    ∃ (s₂ : Signature) (e : RustTy) (gExt : List JIdent) (bExt : List WhereBound),
      java_ref_ty { s with generics := s.generics ++ [JIdent.p s.generics.length] }
          inner = (s₂, .ok e) ∧
      java_ref_ty s (.extends_ inner) =
        (s₂.push_where_bound ⟨JIdent.p s.generics.length, e⟩,
         .ok (.param (JIdent.p s.generics.length))) ∧
      JIdent.p s.generics.length ∉ s.generics ∧
      s₂.generics = s.generics ++ JIdent.p s.generics.length :: gExt ∧
      s₂.where_bounds = s.where_bounds ++ bExt ∧
      (s₂.push_where_bound ⟨JIdent.p s.generics.length, e⟩).where_bounds =
        s.where_bounds ++ (bExt ++ [⟨JIdent.p s.generics.length, e⟩]) := by
  have hc₁ : ({ s with generics := s.generics ++ [JIdent.p s.generics.length] }
      : Signature).capture_generics = true := hc
  have hd₁ : tpDeclared ({ s with generics :=
      s.generics ++ [JIdent.p s.generics.length] } : Signature).generics inner = true :=
    tpDeclared_mono s.generics inner hd [JIdent.p s.generics.length]
  obtain ⟨s₂, e, heq⟩ := java_ref_ty_allowed_ok _ inner hc₁ hd₁
  have hstate := java_ref_ty_state
    { s with generics := s.generics ++ [JIdent.p s.generics.length] } inner
  rw [heq] at hstate
  dsimp only at hstate
  obtain ⟨-, ⟨gExt, hgen⟩, ⟨bExt, hwb⟩⟩ := hstate
  refine ⟨s₂, e, gExt, bExt, heq, ?_, fresh_mint_not_mem s hf, ?_, ?_, ?_⟩
  · simp [java_ref_ty, fresh_generic_ok s hc, heq]
  · simpa using hgen
  · simpa using hwb
  · simp only [Signature.push_where_bound]
    rw [hwb]
    simp

/-- Witness for C2 at a concrete context (one declared generic, inner type an
unbounded wildcard). -/
theorem C2_witness :
    ∃ (s₂ : Signature) (e : RustTy) (gExt : List JIdent) (bExt : List WhereBound),
      java_ref_ty { Signature.new [("T")] with generics :=
          (Signature.new [("T")]).generics ++
            [JIdent.p (Signature.new [("T")]).generics.length] } RefType.wildcard
        = (s₂, .ok e) ∧
      java_ref_ty (Signature.new [("T")]) (.extends_ RefType.wildcard) =
        (s₂.push_where_bound ⟨JIdent.p (Signature.new [("T")]).generics.length, e⟩,
         .ok (.param (JIdent.p (Signature.new [("T")]).generics.length))) ∧
      JIdent.p (Signature.new [("T")]).generics.length ∉
        (Signature.new [("T")]).generics ∧
      s₂.generics = (Signature.new [("T")]).generics ++
        JIdent.p (Signature.new [("T")]).generics.length :: gExt ∧
      s₂.where_bounds = (Signature.new [("T")]).where_bounds ++ bExt ∧
      (s₂.push_where_bound
          ⟨JIdent.p (Signature.new [("T")]).generics.length, e⟩).where_bounds =
        (Signature.new [("T")]).where_bounds ++
          (bExt ++ [⟨JIdent.p (Signature.new [("T")]).generics.length, e⟩]) :=
  C2_extends_captures_with_bound (Signature.new [("T")]) RefType.wildcard rfl
    (freshSafe_new [("T")]) (by simp [tpDeclared])

/-- C5: freshness of every minted capture identifier.  The counter is seeded
at the number of declared generics (`Signature::new` pushes exactly the
declared generics, so the first mint uses index `|D|`), the generics list
only grows, and under the fresh-safety invariant — established by
`Signature::new` and preserved by `java_ref_ty` — each successful
`fresh_generic` returns an identifier different from every declared
generic's host representative and every previously captured identifier (all
of which are members of `s.generics` at mint time), appending it. -/
theorem C5_minted_identifiers_fresh (D : List String) (s s' : Signature)
    (t : RefType) (g : JIdent) :
    FreshSafe (Signature.new D) ∧
    (Signature.new D).generics.length = D.length ∧
    (FreshSafe s → FreshSafe (java_ref_ty s t).1) ∧
    (∃ e, (java_ref_ty s t).1.generics = s.generics ++ e) ∧
    (FreshSafe s → s.fresh_generic = (s', Except.ok g) →
      g = JIdent.p s.generics.length ∧ g ∉ s.generics ∧
      s'.generics = s.generics ++ [g]) := by
  refine ⟨freshSafe_new D, by simp [Signature.new], freshSafe_java_ref_ty s t,
    (java_ref_ty_state s t).2.1, ?_⟩
  intro hf hfg
  by_cases hc : s.capture_generics
  · rw [fresh_generic_ok s hc] at hfg
    obtain ⟨h1, h2⟩ := Prod.mk.injEq .. ▸ hfg
    injection h2 with h2
    subst h2
    exact ⟨rfl, fresh_mint_not_mem s hf, by rw [← h1]⟩
  · rw [fresh_generic_forbidden s (by simpa using hc)] at hfg
    simp at hfg

/-- Witness for C5: minting at a concrete context with one declared generic
yields `P1`, fresh for the context. -/
theorem C5_witness :
    JIdent.p 1 = JIdent.p (Signature.new [("T")]).generics.length ∧
    JIdent.p 1 ∉ (Signature.new [("T")]).generics ∧
    (⟨[JIdent.j ("T"), JIdent.p 1], [], true⟩ : Signature).generics =
      (Signature.new [("T")]).generics ++ [JIdent.p 1] :=
  (C5_minted_identifiers_fresh [("T")] (Signature.new [("T")])
      ⟨[JIdent.j ("T"), JIdent.p 1], [], true⟩ RefType.wildcard
      (JIdent.p 1)).2.2.2.2 (freshSafe_new [("T")]) rfl

/-- Membership in a successfully collected constructor-binding list is
exactly successful translation of some constructor fact. -/
theorem collectCtors_ok_mem (info : ClassInfo) :
    ∀ (cs : List Constructor) (l : List CtorBinding),
      collectCtors info cs = .ok l →
      ∀ b, b ∈ l ↔ ∃ c ∈ cs, info.constructor c = .ok b := by
  intro cs
  induction cs with
  | nil =>
    intro l h b
    simp only [collectCtors] at h
    injection h with h
    subst h
    simp
  | cons c cs ih =>
    intro l h b
    simp only [collectCtors] at h
    cases hcc : info.constructor c with
    | ok b' =>
      rw [hcc] at h
      cases hrest : collectCtors info cs with
      | ok l' =>
        rw [hrest] at h
        injection h with h
        subst h
        simp only [List.mem_cons, List.mem_cons]
        rw [ih l' hrest b]
        constructor
        · rintro (hb | ⟨c', hc', hok⟩)
          · exact ⟨c, Or.inl rfl, by rw [hcc, hb]⟩
          · exact ⟨c', Or.inr hc', hok⟩
        · rintro ⟨c', hc' | hc', hok⟩
          · subst hc'
            rw [hcc] at hok
            injection hok with hok
            exact Or.inl hok.symm
          · exact Or.inr ⟨c', hc', hok⟩
      | error e =>
        rw [hrest] at h
        cases h
    | error err =>
      rw [hcc] at h
      cases err with
      | unsupportedWildcard =>
        rw [ih l h b]
        constructor
        · rintro ⟨c', hc', hok⟩
          exact ⟨c', List.mem_cons_of_mem c hc', hok⟩
        · rintro ⟨c', hc', hok⟩
          rcases List.mem_cons.mp hc' with hc'' | hc''
          · subst hc''
            rw [hcc] at hok
            cases hok
          · exact ⟨c', hc'', hok⟩
      | assertFail =>
        cases h

/-- C3: the constructor collection of `into_tokens` implements the
partial-success policy — whenever the collection is defined (no assertion
panic), a binding is emitted exactly for the constructors whose argument
translation succeeded; a constructor failing with the unsupported-wildcard
signal is dropped from the collection without affecting the rest, and a
succeeding one is prepended without affecting the rest. -/
theorem C3_failing_constructor_skipped (info : ClassInfo) (l : List CtorBinding)
    (h : info.into_tokens_constructors = .ok l) :
    (∀ b, b ∈ l ↔ ∃ c ∈ info.constructors, info.constructor c = .ok b) ∧
    (∀ (c : Constructor) (cs : List Constructor),
      info.constructor c = .error .unsupportedWildcard →
      collectCtors info (c :: cs) = collectCtors info cs) ∧
    (∀ (c : Constructor) (cs : List Constructor) (b : CtorBinding),
      info.constructor c = .ok b →
      collectCtors info (c :: cs) =
        (collectCtors info cs).map (fun rest => b :: rest)) := by
  refine ⟨collectCtors_ok_mem info info.constructors l h, ?_, ?_⟩
  · intro c cs hcc
    simp [collectCtors, hcc]
  · intro c cs b hcc
    simp only [collectCtors, hcc]
    cases hrest : collectCtors info cs <;> simp [Except.map, hrest]

/-- Witness for C3: a class with two constructors, both translating
successfully. -/
theorem C3_witness :
    ClassInfo.into_tokens_constructors
        ⟨("java.lang.Object"), [],
         [⟨[], ("()V")⟩, ⟨[.scalar .int], ("(I)V")⟩]⟩ =
      .ok [⟨[], [], ("()V")⟩,
           ⟨[], [.intoScalar (.scalar ("i32"))], ("(I)V")⟩] ∧
    (∀ b, b ∈ [(⟨[], [], ("()V")⟩ : CtorBinding),
               ⟨[], [.intoScalar (.scalar ("i32"))], ("(I)V")⟩] ↔
      ∃ c ∈ [(⟨[], ("()V")⟩ : Constructor), ⟨[.scalar .int], ("(I)V")⟩],
        ClassInfo.constructor
          ⟨("java.lang.Object"), [],
           [⟨[], ("()V")⟩, ⟨[.scalar .int], ("(I)V")⟩]⟩ c = .ok b) :=
  ⟨rfl,
   (C3_failing_constructor_skipped
      ⟨("java.lang.Object"), [],
       [⟨[], ("()V")⟩, ⟨[.scalar .int], ("(I)V")⟩]⟩
      [⟨[], [], ("()V")⟩,
       ⟨[], [.intoScalar (.scalar ("i32"))], ("(I)V")⟩]
      rfl).1⟩

/-! ## Declaration parser (argument.rs)

The token-cursor type `Parser` and its primitives live in the crate file
parse.rs, which is not part of the given sources; they are modelled from the
spec (§4.1, §6): a cursor over a token stream of identifiers and punctuation
with source spans, where each `eat_*` primitive consumes its token exactly
when it matches and otherwise leaves the cursor unchanged. -/

/-- A lexical token: an identifier (keywords are identifiers with a fixed
text) or a punctuation character. -/
inductive Tok where
  | ident (s : String)
  | punct (c : Char)
deriving DecidableEq, Repr

/-- A token with its source span (spans are opaque; we number them). -/
structure Token where
  tok : Tok
  span : Nat
deriving DecidableEq, Repr

/-- Embeds `SpanError` from span_error.rs: a hard parse error with the span of the
offending or just-consumed token and an expectation message. -/
structure SpanError where
  span : Nat
  message : String
deriving DecidableEq, Repr

/-- Modelled from the spec: the mutable token cursor of parse.rs — the
remaining tokens plus the span of the last consumed token
(`Parser::last_span`). -/
structure Parser where
  tokens : List Token
  lastSpan : Option Nat
deriving DecidableEq, Repr

/-- Modelled from the spec: `Parser::eat_keyword` — consume the head token
exactly when it is an identifier with the given text. -/
def Parser.eatKeyword (kw : String) (p : Parser) : Option Parser :=
  match p.tokens with
  | ⟨.ident s, sp⟩ :: rest => if s = kw then some ⟨rest, some sp⟩ else none
  | _ => none

/-- Modelled from the spec: `Parser::eat_ident` — consume the head token
exactly when it is an identifier, returning its text. -/
def Parser.eatIdent (p : Parser) : Option (String × Parser) :=
  match p.tokens with
  | ⟨.ident s, sp⟩ :: rest => some (s, ⟨rest, some sp⟩)
  | _ => none

/-- Modelled from the spec: `Parser::eat_punct` — consume the head token
exactly when it is the given punctuation character. -/
def Parser.eatPunct (c : Char) (p : Parser) : Option Parser :=
  match p.tokens with
  | ⟨.punct c', sp⟩ :: rest => if c' = c then some ⟨rest, some sp⟩ else none
  | _ => none

/-- Modelled from the spec: `Parser::error` — a hard error carrying the span
of the offending token (the next unconsumed one), or of the token just
consumed when the input is exhausted. -/
def Parser.mkError (p : Parser) (msg : String) : SpanError :=
  ⟨match p.tokens with
    | t :: _ => t.span
    | [] => p.lastSpan.getD 0, msg⟩

/-- Embeds `JavaPath` (argument.rs line 95): the concatenated dotted-path text and
the span of the first segment. -/
structure JavaPath where
  text : String
  span : Nat
deriving DecidableEq, Repr

/-- Embeds `JavaClass` (argument.rs line 55). -/
structure JavaClass where
  class_name : String
  members : Option (List String)
deriving DecidableEq, Repr

/-- Embeds `JavaPackage` (argument.rs line 23). -/
structure JavaPackage where
  package_name : JavaPath
  classes : List JavaClass
deriving DecidableEq, Repr

/-- Embeds `DuchessDeclaration` (argument.rs line 8). -/
structure DuchessDeclaration where
  packages : List JavaPackage
deriving DecidableEq, Repr

/-- Consuming `eat_keyword` shortens the token stream by one. -/
theorem eatKeyword_some_length (kw : String) (p p₁ : Parser)
    (h : Parser.eatKeyword kw p = some p₁) :
    p₁.tokens.length + 1 = p.tokens.length := by
  unfold Parser.eatKeyword at h
  split at h
  next s sp rest heq =>
    split at h
    · injection h with h
      subst h
      simp [heq]
    · cases h
  next => cases h

/-- Consuming `eat_ident` shortens the token stream by one. -/
theorem eatIdent_some_length (p : Parser) (s : String) (p₁ : Parser)
    (h : p.eatIdent = some (s, p₁)) :
    p₁.tokens.length + 1 = p.tokens.length := by
  unfold Parser.eatIdent at h
  split at h
  next s' sp rest heq =>
    injection h with h
    obtain ⟨-, h2⟩ := Prod.mk.injEq .. ▸ h
    subst h2
    simp [heq]
  next => cases h

/-- Consuming `eat_punct` shortens the token stream by one. -/
theorem eatPunct_some_length (c : Char) (p p₁ : Parser)
    (h : p.eatPunct c = some p₁) :
    p₁.tokens.length + 1 = p.tokens.length := by
  unfold Parser.eatPunct at h
  split at h
  next c' sp rest heq =>
    split at h
    · injection h with h
      subst h
      simp [heq]
    · cases h
  next => cases h

/-- The `while let Some(()) = p.eat_punct('.')` loop of `JavaPath::parse`
(argument.rs line 108): eat a `.`, then require an identifier (hard error at
the span of the consumed `.` otherwise) and append its text. -/
def pathLoop (text : String) (p : Parser) : Except SpanError (String × Parser) :=
  match hp : p.eatPunct ('.') with
  | none => .ok (text, p)
  | some p₁ =>
    match hi : p₁.eatIdent with
    | none => .error ⟨p₁.lastSpan.getD 0, ("expected identifier after `.`")⟩
    | some (next, p₂) => pathLoop (text ++ next) p₂
termination_by p.tokens.length
decreasing_by
  have h1 := eatPunct_some_length ('.') p p₁ hp
  have h2 := eatIdent_some_length p₁ next p₂ hi
  omega

/-- Embeds `JavaPath::parse` (argument.rs line 100): no-match unless the head token
is an identifier; then the loop, with the span of the first segment
(`p.last_span().unwrap()` right after the first `eat_ident`). -/
def JavaPath.parse (p : Parser) : Except SpanError (Option JavaPath × Parser) :=
  match p.eatIdent with
  | none => .ok (none, p)
  | some (text, p₁) =>
    match pathLoop text p₁ with
    | .ok (t, p₂) => .ok (some ⟨t, p₁.lastSpan.getD 0⟩, p₂)
    | .error e => .error e

/-- Embeds `JavaClass::parse` (argument.rs line 60): no-match unless the head token
is the keyword `class`; past that, every mismatch is a hard error. -/
def JavaClass.parse (p : Parser) : Except SpanError (Option JavaClass × Parser) :=
  match Parser.eatKeyword ("class") p with
  | none => .ok (none, p)
  | some p₁ =>
    match p₁.eatIdent with
    | none => .error (p₁.mkError ("expected class name"))
    | some (class_name, p₂) =>
      match p₂.eatPunct ('\x7b') with
      | none => .error (p₂.mkError ("expected '\x7b' after class name"))
      | some p₃ =>
        match p₃.eatPunct ('*') with
        | none => .error (p₃.mkError ("expected '*'"))
        | some p₄ =>
          match p₄.eatPunct ('\x7d') with
          | none => .error (p₄.mkError ("expected '\x7d' after class methods"))
          | some p₅ => .ok (some ⟨class_name, none⟩, p₅)

/-- A successful `JavaClass::parse` consumes at least one token. -/
theorem classParse_some_length (p : Parser) (c : JavaClass) (p' : Parser)
    (h : JavaClass.parse p = .ok (some c, p')) :
    p'.tokens.length < p.tokens.length := by
  unfold JavaClass.parse at h
  cases hk : Parser.eatKeyword ("class") p with
  | none => simp [hk] at h
  | some p₁ =>
    simp only [hk] at h
    cases hi : p₁.eatIdent with
    | none => simp [hi] at h
    | some v =>
      obtain ⟨cn, p₂⟩ := v
      simp only [hi] at h
      cases hb : p₂.eatPunct ('\x7b') with
      | none => simp [hb] at h
      | some p₃ =>
        simp only [hb] at h
        cases hs : p₃.eatPunct ('*') with
        | none => simp [hs] at h
        | some p₄ =>
          simp only [hs] at h
          cases he : p₄.eatPunct ('\x7d') with
          | none => simp [he] at h
          | some p₅ =>
            simp only [he] at h
            injection h with h
            obtain ⟨-, h2⟩ := Prod.mk.injEq .. ▸ h
            subst h2
            have l1 := eatKeyword_some_length ("class") p p₁ hk
            have l2 := eatIdent_some_length p₁ cn p₂ hi
            have l3 := eatPunct_some_length ('\x7b') p₂ p₃ hb
            have l4 := eatPunct_some_length ('*') p₃ p₄ hs
            have l5 := eatPunct_some_length ('\x7d') p₄ p₅ he
            omega

/-- The `Parse::parse_many` combinator (from parse.rs, modelled from the
spec §4.1) instantiated at `JavaClass`: repeatedly run the unit parser,
collecting matches, stopping at the first no-match; hard errors propagate. -/
def JavaClass.parseMany (p : Parser) : Except SpanError (List JavaClass × Parser) :=
  match hr : JavaClass.parse p with
  | .error e => .error e
  | .ok (none, p') => .ok ([], p')
  | .ok (some c, p') =>
    match JavaClass.parseMany p' with
    | .ok (cs, p'') => .ok (c :: cs, p'')
    | .error e => .error e
termination_by p.tokens.length
decreasing_by
  exact classParse_some_length p c p' hr

/-- Unfolding equation for `pathLoop`: no `.` ahead ends the loop. -/
theorem pathLoop_none (text : String) (p : Parser)
    (hp : Parser.eatPunct ('.') p = none) :
    pathLoop text p = .ok (text, p) := by
  rw [pathLoop.eq_def]
  split
  · rfl
  · next p₁ heq =>
    rw [hp] at heq
    cases heq

/-- Unfolding equation for `pathLoop`: a `.` not followed by an identifier
is a hard error at the span of the consumed `.`. -/
theorem pathLoop_error (text : String) (p p₁ : Parser)
    (hp : Parser.eatPunct ('.') p = some p₁) (hi : p₁.eatIdent = none) :
    pathLoop text p =
      .error ⟨p₁.lastSpan.getD 0, ("expected identifier after `.`")⟩ := by
  rw [pathLoop.eq_def]
  split
  · next heq =>
    rw [hp] at heq
    cases heq
  · next p₁' heq =>
    rw [hp] at heq
    injection heq with heq
    subst heq
    split
    · rfl
    · next v hi2 =>
      rw [hi] at hi2
      cases hi2

/-- Unfolding equation for `pathLoop`: a `.` followed by an identifier
appends the identifier's text and continues. -/
theorem pathLoop_cons (text : String) (p p₁ : Parser) (next : String)
    (p₂ : Parser) (hp : Parser.eatPunct ('.') p = some p₁)
    (hi : p₁.eatIdent = some (next, p₂)) :
    pathLoop text p = pathLoop (text ++ next) p₂ := by
  rw [pathLoop.eq_def]
  split
  · next heq =>
    rw [hp] at heq
    cases heq
  · next p₁' heq =>
    rw [hp] at heq
    injection heq with heq
    subst heq
    split
    · next hi2 =>
      rw [hi] at hi2
      cases hi2
    · next next' p₂' hi2 =>
      rw [hi] at hi2
      injection hi2 with hi2
      obtain ⟨h1, h2⟩ := Prod.mk.injEq .. ▸ hi2
      subst h1
      subst h2
      rfl

/-- The path loop never grows the token stream. -/
theorem pathLoop_ok_length (text : String) (p : Parser) :
    ∀ (t : String) (p' : Parser), pathLoop text p = .ok (t, p') →
      p'.tokens.length ≤ p.tokens.length := by
  induction text, p using pathLoop.induct
  case case1 text p hp =>
    intro t p' h
    rw [pathLoop_none text p hp] at h
    injection h with h
    obtain ⟨-, h2⟩ := Prod.mk.injEq .. ▸ h
    subst h2
    exact le_rfl
  case case2 text p p₁ hp hi =>
    intro t p' h
    rw [pathLoop_error text p p₁ hp hi] at h
    cases h
  case case3 text p p₁ hp next p₂ hi ih =>
    intro t p' h
    rw [pathLoop_cons text p p₁ next p₂ hp hi] at h
    have h1 := eatPunct_some_length ('.') p p₁ hp
    have h2 := eatIdent_some_length p₁ next p₂ hi
    have h3 := ih t p' h
    omega

/-- A successful `JavaPath::parse` match consumes at least one token. -/
theorem pathParse_some_length (p : Parser) (jp : JavaPath) (p' : Parser)
    (h : JavaPath.parse p = .ok (some jp, p')) :
    p'.tokens.length < p.tokens.length := by
  unfold JavaPath.parse at h
  cases hi : p.eatIdent with
  | none => simp [hi] at h
  | some v =>
    obtain ⟨text, p₁⟩ := v
    simp only [hi] at h
    cases hl : pathLoop text p₁ with
    | error e => simp [hl] at h
    | ok v' =>
      obtain ⟨t, p₂⟩ := v'
      simp only [hl] at h
      injection h with h
      obtain ⟨-, h2⟩ := Prod.mk.injEq .. ▸ h
      have l1 := eatIdent_some_length p text p₁ hi
      have l2 := pathLoop_ok_length text p₁ t p₂ hl
      rw [h2] at l2
      omega

/-- Unfolding equation for `JavaClass.parseMany`: a hard error propagates. -/
theorem classParseMany_error (p : Parser) (e : SpanError)
    (hr : JavaClass.parse p = .error e) :
    JavaClass.parseMany p = .error e := by
  rw [JavaClass.parseMany.eq_def]
  split
  · next e' heq =>
    rw [hr] at heq
    injection heq with heq
    rw [heq]
  · next p' heq =>
    rw [hr] at heq
    cases heq
  · next c p' heq =>
    rw [hr] at heq
    cases heq

/-- Unfolding equation for `JavaClass.parseMany`: a no-match stops the loop. -/
theorem classParseMany_none (p p' : Parser)
    (hr : JavaClass.parse p = .ok (none, p')) :
    JavaClass.parseMany p = .ok ([], p') := by
  rw [JavaClass.parseMany.eq_def]
  split
  · next e' heq =>
    rw [hr] at heq
    cases heq
  · next p'' heq =>
    rw [hr] at heq
    injection heq with heq
    obtain ⟨-, h2⟩ := Prod.mk.injEq .. ▸ heq
    rw [h2]
  · next c p'' heq =>
    rw [hr] at heq
    injection heq with heq
    obtain ⟨h1, -⟩ := Prod.mk.injEq .. ▸ heq
    cases h1

/-- Unfolding equation for `JavaClass.parseMany`: a match is collected and
the loop continues. -/
theorem classParseMany_cons (p : Parser) (c : JavaClass) (p' : Parser)
    (hr : JavaClass.parse p = .ok (some c, p')) :
    JavaClass.parseMany p =
      match JavaClass.parseMany p' with
      | .ok (cs, p'') => .ok (c :: cs, p'')
      | .error e => .error e := by
  rw [JavaClass.parseMany.eq_def]
  split
  · next e' heq =>
    rw [hr] at heq
    cases heq
  · next p'' heq =>
    rw [hr] at heq
    injection heq with heq
    obtain ⟨h1, -⟩ := Prod.mk.injEq .. ▸ heq
    cases h1
  · next c' p'' heq =>
    rw [hr] at heq
    injection heq with heq
    obtain ⟨h1, h2⟩ := Prod.mk.injEq .. ▸ heq
    injection h1 with h1
    subst h1
    subst h2
    rfl

/-- Lemma: `JavaClass::parse` reports a no-match only from its very first token,
leaving the cursor untouched. -/
theorem classParse_none_unchanged (p p' : Parser)
    (h : JavaClass.parse p = .ok (none, p')) :
    p' = p ∧ Parser.eatKeyword ("class") p = none := by
  unfold JavaClass.parse at h
  cases hk : Parser.eatKeyword ("class") p with
  | none =>
    simp only [hk] at h
    injection h with h
    obtain ⟨-, h2⟩ := Prod.mk.injEq .. ▸ h
    exact ⟨h2.symm, rfl⟩
  | some p₁ =>
    simp only [hk] at h
    cases hi : p₁.eatIdent with
    | none => simp [hi] at h
    | some v =>
      obtain ⟨cn, p₂⟩ := v
      simp only [hi] at h
      cases hb : p₂.eatPunct ('\x7b') with
      | none => simp [hb] at h
      | some p₃ =>
        simp only [hb] at h
        cases hs : p₃.eatPunct ('*') with
        | none => simp [hs] at h
        | some p₄ =>
          simp only [hs] at h
          cases he : p₄.eatPunct ('\x7d') with
          | none => simp [he] at h
          | some p₅ => simp [he] at h

/-- Lemma: `JavaClass::parse_many` never grows the token stream. -/
theorem classParseMany_ok_length (p : Parser) :
    ∀ (cs : List JavaClass) (p' : Parser),
      JavaClass.parseMany p = .ok (cs, p') →
      p'.tokens.length ≤ p.tokens.length := by
  induction p using JavaClass.parseMany.induct
  case case1 p e hr =>
    intro cs p' h
    rw [classParseMany_error p e hr] at h
    cases h
  case case2 p p₂ hr =>
    intro cs p' h
    rw [classParseMany_none p p₂ hr] at h
    injection h with h
    obtain ⟨-, h2⟩ := Prod.mk.injEq .. ▸ h
    obtain ⟨h3, -⟩ := classParse_none_unchanged p p₂ hr
    rw [← h2, h3]
  case case3 p c p₂ hr cs' p₃ hm ih =>
    intro cs p' h
    rw [classParseMany_cons p c p₂ hr] at h
    rw [hm] at h
    injection h with h
    obtain ⟨-, h2⟩ := Prod.mk.injEq .. ▸ h
    have l1 := classParse_some_length p c p₂ hr
    have l2 := ih cs' p₃ hm
    rw [h2] at l2
    omega
  case case4 p c p₂ hr e hm ih =>
    intro cs p' h
    rw [classParseMany_cons p c p₂ hr] at h
    rw [hm] at h
    cases h

/-- Embeds `JavaPackage::parse` (argument.rs line 28): no-match unless the head
token is the keyword `package`; then a path (missing ⇒ hard error), a `;`
(missing ⇒ hard error), and the class list. -/
def JavaPackage.parse (p : Parser) : Except SpanError (Option JavaPackage × Parser) :=
  match Parser.eatKeyword ("package") p with
  | none => .ok (none, p)
  | some p₁ =>
    match JavaPath.parse p₁ with
    | .error e => .error e
    | .ok (none, p₂) => .error (p₂.mkError ("expected package name"))
    | .ok (some package_name, p₂) =>
      match p₂.eatPunct (';') with
      | none => .error (p₂.mkError ("expected `;` after package name"))
      | some p₃ =>
        match JavaClass.parseMany p₃ with
        | .error e => .error e
        | .ok (classes, p₄) => .ok (some ⟨package_name, classes⟩, p₄)

/-- A successful `JavaPackage::parse` match consumes at least one token. -/
theorem packageParse_some_length (p : Parser) (pk : JavaPackage) (p' : Parser)
    (h : JavaPackage.parse p = .ok (some pk, p')) :
    p'.tokens.length < p.tokens.length := by
  unfold JavaPackage.parse at h
  cases hk : Parser.eatKeyword ("package") p with
  | none => simp [hk] at h
  | some p₁ =>
    simp only [hk] at h
    cases hpath : JavaPath.parse p₁ with
    | error e => simp [hpath] at h
    | ok v =>
      obtain ⟨o, p₂⟩ := v
      cases o with
      | none => simp [hpath] at h
      | some package_name =>
        simp only [hpath] at h
        cases hsc : p₂.eatPunct (';') with
        | none => simp [hsc] at h
        | some p₃ =>
          simp only [hsc] at h
          cases hm : JavaClass.parseMany p₃ with
          | error e => simp [hm] at h
          | ok v' =>
            obtain ⟨classes, p₄⟩ := v'
            simp only [hm] at h
            injection h with h
            obtain ⟨-, h2⟩ := Prod.mk.injEq .. ▸ h
            have l1 := eatKeyword_some_length ("package") p p₁ hk
            have l2 := pathParse_some_length p₁ package_name p₂ hpath
            have l3 := eatPunct_some_length (';') p₂ p₃ hsc
            have l4 := classParseMany_ok_length p₃ classes p₄ hm
            rw [h2] at l4
            omega

/-- Embeds `Parse::parse_many` instantiated at `JavaPackage` (the top-level loop of
`DuchessDeclaration::parse`, argument.rs line 14). -/
def JavaPackage.parseMany (p : Parser) : Except SpanError (List JavaPackage × Parser) :=
  match hr : JavaPackage.parse p with
  | .error e => .error e
  | .ok (none, p') => .ok ([], p')
  | .ok (some pk, p') =>
    match JavaPackage.parseMany p' with
    | .ok (pks, p'') => .ok (pk :: pks, p'')
    | .error e => .error e
termination_by p.tokens.length
decreasing_by
  exact packageParse_some_length p pk p' hr

/-- Unfolding equation for `JavaPackage.parseMany`: a no-match stops the
loop. -/
theorem packageParseMany_none (p p' : Parser)
    (hr : JavaPackage.parse p = .ok (none, p')) :
    JavaPackage.parseMany p = .ok ([], p') := by
  rw [JavaPackage.parseMany.eq_def]
  split
  · next e' heq =>
    rw [hr] at heq
    cases heq
  · next p'' heq =>
    rw [hr] at heq
    injection heq with heq
    obtain ⟨-, h2⟩ := Prod.mk.injEq .. ▸ heq
    rw [h2]
  · next pk p'' heq =>
    rw [hr] at heq
    injection heq with heq
    obtain ⟨h1, -⟩ := Prod.mk.injEq .. ▸ heq
    cases h1

/-- Embeds `DuchessDeclaration::parse` (argument.rs line 12): collect the packages
and always report a match. -/
def DuchessDeclaration.parse (p : Parser) :
    Except SpanError (Option DuchessDeclaration × Parser) :=
  match JavaPackage.parseMany p with
  | .ok (packages, p') => .ok (some ⟨packages⟩, p')
  | .error e => .error e

/-- C7: each unit parser (`Package`, `Class`, `DottedPath`) reports a
no-match exactly when its very first token (the keyword `package`/`class`,
or an identifier for a path) does not match, and then leaves the cursor
unchanged; once the first token has been consumed, every outcome is a match
or a hard error, never a silent no-match. -/
theorem C7_no_match_only_first_token (p p' : Parser) :
    (JavaPackage.parse p = .ok (none, p') ↔
      p' = p ∧ Parser.eatKeyword ("package") p = none) ∧
    (JavaClass.parse p = .ok (none, p') ↔
      p' = p ∧ Parser.eatKeyword ("class") p = none) ∧
    (JavaPath.parse p = .ok (none, p') ↔
      p' = p ∧ p.eatIdent = none) := by
  refine ⟨⟨?_, ?_⟩, ⟨?_, ?_⟩, ⟨?_, ?_⟩⟩
  · intro h
    unfold JavaPackage.parse at h
    cases hk : Parser.eatKeyword ("package") p with
    | none =>
      simp only [hk] at h
      injection h with h
      obtain ⟨-, h2⟩ := Prod.mk.injEq .. ▸ h
      exact ⟨h2.symm, rfl⟩
    | some p₁ =>
      simp only [hk] at h
      cases hpath : JavaPath.parse p₁ with
      | error e => simp [hpath] at h
      | ok v =>
        obtain ⟨o, p₂⟩ := v
        cases o with
        | none => simp [hpath] at h
        | some package_name =>
          simp only [hpath] at h
          cases hsc : p₂.eatPunct (';') with
          | none => simp [hsc] at h
          | some p₃ =>
            simp only [hsc] at h
            cases hm : JavaClass.parseMany p₃ with
            | error e => simp [hm] at h
            | ok v' =>
              obtain ⟨classes, p₄⟩ := v'
              simp [hm] at h
  · rintro ⟨rfl, hk⟩
    unfold JavaPackage.parse
    simp only [hk]
  · exact classParse_none_unchanged p p'
  · rintro ⟨rfl, hk⟩
    unfold JavaClass.parse
    simp only [hk]
  · intro h
    unfold JavaPath.parse at h
    cases hi : p.eatIdent with
    | none =>
      simp only [hi] at h
      injection h with h
      obtain ⟨-, h2⟩ := Prod.mk.injEq .. ▸ h
      exact ⟨h2.symm, rfl⟩
    | some v =>
      obtain ⟨text, p₁⟩ := v
      simp only [hi] at h
      cases hl : pathLoop text p₁ with
      | error e => simp [hl] at h
      | ok v' =>
        obtain ⟨t, p₂⟩ := v'
        simp [hl] at h
  · rintro ⟨rfl, hi⟩
    unfold JavaPath.parse
    simp only [hi]

/-- Witness for C7 at a concrete cursor. -/
theorem C7_witness :
    (JavaPackage.parse ⟨[], none⟩ = .ok (none, ⟨[], none⟩) ↔
      (⟨[], none⟩ : Parser) = ⟨[], none⟩ ∧
        Parser.eatKeyword ("package") ⟨[], none⟩ = none) ∧
    (JavaClass.parse ⟨[], none⟩ = .ok (none, ⟨[], none⟩) ↔
      (⟨[], none⟩ : Parser) = ⟨[], none⟩ ∧
        Parser.eatKeyword ("class") ⟨[], none⟩ = none) ∧
    (JavaPath.parse ⟨[], none⟩ = .ok (none, ⟨[], none⟩) ↔
      (⟨[], none⟩ : Parser) = ⟨[], none⟩ ∧
        Parser.eatIdent ⟨[], none⟩ = none) :=
  C7_no_match_only_first_token ⟨[], none⟩ ⟨[], none⟩

/-- The token stream of a sequence of `(. identifier)` pairs, each with the
span of the `.` and of the identifier. -/
def dotPairs : List (Nat × String × Nat) → List Token
  | [] => []
  | (dsp, s, isp) :: rest =>
    ⟨.punct ('.'), dsp⟩ :: ⟨.ident s, isp⟩ :: dotPairs rest

/-- Does the token stream start with a `.`? -/
def headDot : List Token → Bool
  | ⟨.punct c, _⟩ :: _ => c == ('.')
  | _ => false

/-- Does the token stream start with an identifier? -/
def headIdent : List Token → Bool
  | ⟨.ident _, _⟩ :: _ => true
  | _ => false

/-- Lemma: `eat_punct('.')` fails on a stream that does not start with a `.`. -/
theorem eatPunct_dot_none (ts : List Token) (ls : Option Nat)
    (h : headDot ts = false) : Parser.eatPunct ('.') ⟨ts, ls⟩ = none := by
  match ts with
  | [] => rfl
  | ⟨.ident s, sp⟩ :: rest => rfl
  | ⟨.punct c, sp⟩ :: rest =>
    simp only [headDot] at h
    simp at h
    simp [Parser.eatPunct, h]

/-- Lemma: `eat_ident` fails on a stream that does not start with an identifier. -/
theorem eatIdent_none_of_headIdent (ts : List Token) (ls : Option Nat)
    (h : headIdent ts = false) : Parser.eatIdent ⟨ts, ls⟩ = none := by
  match ts with
  | [] => rfl
  | ⟨.punct c, sp⟩ :: rest => rfl
  | ⟨.ident s, sp⟩ :: rest => simp [headIdent] at h

/-- The last-consumed span after eating a sequence of `(. identifier)`
pairs: the span of the last identifier, or the incoming value when there are
no pairs. -/
def lastSpanOf : List (Nat × String × Nat) → Option Nat → Option Nat
  | [], ls => ls
  | (_, _, isp) :: rest, _ => lastSpanOf rest (some isp)

/-- Running the path loop over a stream of `(. identifier)` pairs followed by
a non-`.` remainder: it consumes exactly the pairs, concatenates the segment
texts onto the accumulator with no separator, and records as last-consumed
span the span of the last identifier (or keeps the incoming one when there
are no pairs). -/
theorem pathLoop_pairs (ps : List (Nat × String × Nat)) :
    ∀ (text : String) (rest : List Token) (ls : Option Nat),
      headDot rest = false →
      pathLoop text ⟨dotPairs ps ++ rest, ls⟩ =
        .ok ((ps.map fun q => q.2.1).foldl (fun a b => a ++ b) text,
             ⟨rest, lastSpanOf ps ls⟩) := by
  induction ps with
  | nil =>
    intro text rest ls h
    simp only [dotPairs, List.nil_append, List.map_nil, List.foldl_nil,
      lastSpanOf]
    exact pathLoop_none text ⟨rest, ls⟩ (eatPunct_dot_none rest ls h)
  | cons q ps ih =>
    obtain ⟨dsp, sq, isp⟩ := q
    intro text rest ls h
    have hp : Parser.eatPunct ('.') ⟨dotPairs ((dsp, sq, isp) :: ps) ++ rest, ls⟩ =
        some ⟨⟨.ident sq, isp⟩ :: (dotPairs ps ++ rest), some dsp⟩ := by
      simp [dotPairs, Parser.eatPunct]
    have hi : Parser.eatIdent ⟨⟨.ident sq, isp⟩ :: (dotPairs ps ++ rest), some dsp⟩ =
        some (sq, ⟨dotPairs ps ++ rest, some isp⟩) := rfl
    rw [pathLoop_cons _ _ _ _ _ hp hi]
    rw [ih (text ++ sq) rest (some isp) h]
    simp only [lastSpanOf, List.map_cons, List.foldl_cons]

/-- Running the path loop over `(. identifier)` pairs followed by a `.` that
is not followed by an identifier: a hard error at the span of that `.`. -/
theorem pathLoop_pairs_error (ps : List (Nat × String × Nat)) :
    ∀ (text : String) (dsp : Nat) (rest : List Token) (ls : Option Nat),
      headIdent rest = false →
      pathLoop text ⟨dotPairs ps ++ ⟨.punct ('.'), dsp⟩ :: rest, ls⟩ =
        .error ⟨dsp, ("expected identifier after `.`")⟩ := by
  induction ps with
  | nil =>
    intro text dsp rest ls h
    have hp : Parser.eatPunct ('.')
        ⟨dotPairs [] ++ ⟨.punct ('.'), dsp⟩ :: rest, ls⟩ =
        some ⟨rest, some dsp⟩ := by
      simp [dotPairs, Parser.eatPunct]
    have hi : Parser.eatIdent ⟨rest, some dsp⟩ = none :=
      eatIdent_none_of_headIdent rest (some dsp) h
    rw [pathLoop_error _ _ _ hp hi]
    rfl
  | cons q ps ih =>
    obtain ⟨dsp', sq, isp⟩ := q
    intro text dsp rest ls h
    have hp : Parser.eatPunct ('.')
        ⟨dotPairs ((dsp', sq, isp) :: ps) ++ ⟨.punct ('.'), dsp⟩ :: rest, ls⟩ =
        some ⟨⟨.ident sq, isp⟩ :: (dotPairs ps ++ ⟨.punct ('.'), dsp⟩ :: rest),
              some dsp'⟩ := by
      simp [dotPairs, Parser.eatPunct]
    have hi : Parser.eatIdent
        ⟨⟨.ident sq, isp⟩ :: (dotPairs ps ++ ⟨.punct ('.'), dsp⟩ :: rest),
         some dsp'⟩ =
        some (sq, ⟨dotPairs ps ++ ⟨.punct ('.'), dsp⟩ :: rest, some isp⟩) := rfl
    rw [pathLoop_cons _ _ _ _ _ hp hi]
    exact ih (text ++ sq) dsp rest (some isp) h

/-- C8: `JavaPath::parse` on an identifier followed by zero or more
`(. identifier)` pairs consumes exactly those tokens, returns the
concatenation of the segment texts with no separator characters, records as
its span the source span of the first segment only, and produces a hard
error when a `.` is not followed by an identifier. -/
theorem C8_dotted_path (s₀ : String) (sp₀ : Nat)
    (ps : List (Nat × String × Nat)) (rest : List Token) (ls : Option Nat)
    (h1 : headDot rest = false) (h2 : headIdent rest = false) :
    JavaPath.parse ⟨⟨.ident s₀, sp₀⟩ :: (dotPairs ps ++ rest), ls⟩ =
      .ok (some ⟨(ps.map fun q => q.2.1).foldl (fun a b => a ++ b) s₀, sp₀⟩,
           ⟨rest, lastSpanOf ps (some sp₀)⟩) ∧
    (∀ dsp : Nat,
      JavaPath.parse
          ⟨⟨.ident s₀, sp₀⟩ :: (dotPairs ps ++ ⟨.punct ('.'), dsp⟩ :: rest), ls⟩ =
        .error ⟨dsp, ("expected identifier after `.`")⟩) := by
  constructor
  · unfold JavaPath.parse
    have hi : Parser.eatIdent ⟨⟨.ident s₀, sp₀⟩ :: (dotPairs ps ++ rest), ls⟩ =
        some (s₀, ⟨dotPairs ps ++ rest, some sp₀⟩) := rfl
    simp only [hi]
    rw [pathLoop_pairs ps s₀ rest (some sp₀) h1]
    rfl
  · intro dsp
    unfold JavaPath.parse
    have hi : Parser.eatIdent
        ⟨⟨.ident s₀, sp₀⟩ :: (dotPairs ps ++ ⟨.punct ('.'), dsp⟩ :: rest), ls⟩ =
        some (s₀, ⟨dotPairs ps ++ ⟨.punct ('.'), dsp⟩ :: rest, some sp₀⟩) := rfl
    simp only [hi]
    rw [pathLoop_pairs_error ps s₀ dsp rest (some sp₀) h2]

/-- Witness for C8: parsing `a.b ;` and `a.b. ;`. -/
theorem C8_witness :
    JavaPath.parse ⟨⟨.ident ("a"), 0⟩ ::
        (dotPairs [(1, ("b"), 2)] ++ [⟨.punct (';'), 3⟩]), none⟩ =
      .ok (some ⟨([(1, ("b"), 2)].map fun q => q.2.1).foldl
              (fun a b => a ++ b) ("a"), 0⟩,
           ⟨[⟨.punct (';'), 3⟩], lastSpanOf [(1, ("b"), 2)] (some 0)⟩) ∧
    (∀ dsp : Nat,
      JavaPath.parse ⟨⟨.ident ("a"), 0⟩ ::
          (dotPairs [(1, ("b"), 2)] ++
            ⟨.punct ('.'), dsp⟩ :: [⟨.punct (';'), 3⟩]), none⟩ =
        .error ⟨dsp, ("expected identifier after `.`")⟩) :=
  C8_dotted_path ("a") 0 [(1, ("b"), 2)] [⟨.punct (';'), 3⟩] none
    (by decide) (by decide)

/-- C10: the top-level declaration parser never reports a no-match — on
every token stream where collecting the package list does not produce a hard
error it matches a declaration whose packages are exactly the ones the
repeat-until-no-match loop collected, and in particular the empty token
stream parses to a declaration with zero packages. -/
theorem C10_top_level_never_no_match (p : Parser) :
    (∀ (r : Option DuchessDeclaration) (p₂ : Parser),
        DuchessDeclaration.parse p = .ok (r, p₂) → ∃ d, r = some d) ∧
    (∀ (pkgs : List JavaPackage) (p₂ : Parser),
        JavaPackage.parseMany p = .ok (pkgs, p₂) →
        DuchessDeclaration.parse p = .ok (some ⟨pkgs⟩, p₂)) ∧
    DuchessDeclaration.parse ⟨[], none⟩ = .ok (some ⟨[]⟩, ⟨[], none⟩) := by
  refine ⟨?_, ?_, ?_⟩
  · intro r p₂ h
    unfold DuchessDeclaration.parse at h
    cases hm : JavaPackage.parseMany p with
    | ok v =>
      obtain ⟨pkgs, p'⟩ := v
      simp only [hm] at h
      injection h with h
      obtain ⟨h1, -⟩ := Prod.mk.injEq .. ▸ h
      exact ⟨⟨pkgs⟩, h1.symm⟩
    | error e => simp [hm] at h
  · intro pkgs p₂ h
    unfold DuchessDeclaration.parse
    simp only [h]
  · have hempty : JavaPackage.parse ⟨[], none⟩ = .ok (none, ⟨[], none⟩) := rfl
    unfold DuchessDeclaration.parse
    rw [packageParseMany_none ⟨[], none⟩ ⟨[], none⟩ hempty]

/-- Witness for C10: the empty token stream parses to a declaration with
zero packages, through the loop's collected package list. -/
theorem C10_witness :
    DuchessDeclaration.parse ⟨[], none⟩ = .ok (some ⟨[]⟩, ⟨[], none⟩) ∧
    (∃ d, (some (⟨[]⟩ : DuchessDeclaration)) = some d) :=
  ⟨(C10_top_level_never_no_match ⟨[], none⟩).2.2,
   (C10_top_level_never_no_match ⟨[], none⟩).1 (some ⟨[]⟩) ⟨[], none⟩
     (C10_top_level_never_no_match ⟨[], none⟩).2.2⟩

end Duchess
